import Mathlib

/-!
Shallow embedding of the elevation lookup engine of opentopodata
(src/opentopodata/backend.py) and proofs about it.

Numeric coordinate and elevation values are modelled as rationals.  External
collaborators (the pyproj projection engine, rasterio raster files and the
config.Dataset capability) are modelled as abstract function records whose
only laws are the index-alignment (length preservation) contracts stated in
the specification.
-/

namespace Opentopodata

/-- The resampling kernels exposed by the backend (rasterio.enums.Resampling,
restricted to the enumerated subset). -/
inductive Resampling where
  | nearest
  | bilinear
  | cubic
  deriving DecidableEq, Repr

/-- INTERPOLATION_METHODS from backend.py: a finite map from kernel name to
the raster engine resampling method. -/
def INTERPOLATION_METHODS : List (String × Resampling) :=
  [("nearest", Resampling.nearest),
   ("bilinear", Resampling.bilinear),
   ("cubic", Resampling.cubic)]

/-- WGS84_LATLON_EPSG from backend.py. -/
def WGS84_LATLON_EPSG : Int := 4326

/-- Which axis an out-of-bounds error message refers to. -/
inductive Axis where
  | latitude
  | longitude
  deriving DecidableEq, Repr

/-- InputError from backend.py.  The error message is determined by the
constructor and its payload: each constructor corresponds to one format
string in the source, and the payload fields are exactly the values
interpolated into that format string. -/
inductive InputError where
  | invalidProjection
  | locationOutsideRasterBounds (lat lon : ℚ) (axis : Axis)
  | pointOutsideDatasetBounds (lat lon : ℚ)
  deriving DecidableEq, Repr

/-- A rasterio BoundingBox: fields in rasterio constructor order
(left, bottom, right, top). -/
structure BoundingBox where
  left : ℚ
  bottom : ℚ
  right : ℚ
  top : ℚ
  deriving DecidableEq, Repr

/-- The pyproj forward projection engine, abstracted: transform epsg lons lats
returns (xs, ys).  The only law is that outputs are index-aligned with the
inputs, which is the pyproj contract the source relies on. -/
structure Projection where
  transform : Int → List ℚ → List ℚ → List ℚ × List ℚ
  transform_fst_length : ∀ e lons lats, (transform e lons lats).1.length = lons.length
  transform_snd_length : ∀ e lons lats, (transform e lons lats).2.length = lats.length

/-- The body of backend._reproject_latlons: identity for EPSG 4326, an
InputError for codes outside 1024..32767, otherwise the pyproj transform. -/
def reproject_latlons (proj : Projection) (lats lons : List ℚ) (epsg : Int) :
    Except InputError (List ℚ × List ℚ) :=
  if epsg = WGS84_LATLON_EPSG then
    Except.ok (lons, lats)
  else if !(decide (1024 ≤ epsg) && decide (epsg ≤ 32767)) then
    Except.error InputError.invalidProjection
  else
    Except.ok (proj.transform epsg lons lats)

/-- numpy argmax on a boolean vector: the index of the first True entry, or 0
when every entry is False (then the maximum, False, first occurs at index 0). -/
def np_argmax (bs : List Bool) : Nat :=
  (bs.findIdx? (fun b => b)).getD 0

/-- The local variable x_min of _validate_points_lie_within_raster: the left
edge of the valid extent, inset by half a pixel. -/
def raster_x_min (bounds : BoundingBox) (res : ℚ × ℚ) : ℚ :=
  min bounds.left bounds.right + res.1 / 2

/-- The local variable x_max of _validate_points_lie_within_raster. -/
def raster_x_max (bounds : BoundingBox) (res : ℚ × ℚ) : ℚ :=
  max bounds.left bounds.right - res.1 / 2

/-- The local variable y_min of _validate_points_lie_within_raster. -/
def raster_y_min (bounds : BoundingBox) (res : ℚ × ℚ) : ℚ :=
  min bounds.top bounds.bottom + res.2 / 2

/-- The local variable y_max of _validate_points_lie_within_raster. -/
def raster_y_max (bounds : BoundingBox) (res : ℚ × ℚ) : ℚ :=
  max bounds.top bounds.bottom - res.2 / 2

/-- The local variable x_in_bounds: the elementwise mask
(xs >= x_min) & (xs <= x_max). -/
def x_in_bounds_mask (xs : List ℚ) (bounds : BoundingBox) (res : ℚ × ℚ) : List Bool :=
  xs.map (fun x => decide (raster_x_min bounds res ≤ x) && decide (x ≤ raster_x_max bounds res))

/-- The local variable y_in_bounds: the elementwise mask
(ys >= y_min) & (ys <= y_max). -/
def y_in_bounds_mask (ys : List ℚ) (bounds : BoundingBox) (res : ℚ × ℚ) : List Bool :=
  ys.map (fun y => decide (raster_y_min bounds res ≤ y) && decide (y ≤ raster_y_max bounds res))

/-- The body of backend._validate_points_lie_within_raster.  Bounds are inset
by half a pixel per axis; the y axis is checked before the x axis; the index
reported on failure is np.argmax applied to the in-bounds mask, exactly as in
the source. -/
def validate_points_lie_within_raster (xs ys lats lons : List ℚ)
    (bounds : BoundingBox) (res : ℚ × ℚ) : Except InputError Unit :=
  if !((y_in_bounds_mask ys bounds res).all (fun b => b)) then
    Except.error (InputError.locationOutsideRasterBounds
      (lats.getD (np_argmax (y_in_bounds_mask ys bounds res)) 0)
      (lons.getD (np_argmax (y_in_bounds_mask ys bounds res)) 0) Axis.latitude)
  else if !((x_in_bounds_mask xs bounds res).all (fun b => b)) then
    Except.error (InputError.locationOutsideRasterBounds
      (lats.getD (np_argmax (x_in_bounds_mask xs bounds res)) 0)
      (lons.getD (np_argmax (x_in_bounds_mask xs bounds res)) 0) Axis.longitude)
  else
    Except.ok ()

/-- A concrete projection engine used to instantiate theorems with
hypotheses: it sends each coordinate pair to itself. -/
def projConst : Projection where
  transform := fun _ lons lats => (lons, lats)
  transform_fst_length := fun _ _ _ => rfl
  transform_snd_length := fun _ _ _ => rfl

/-- numpy clip: clamp a value into the closed interval from lo to hi,
applying the lower bound first. -/
def np_clip (q lo hi : ℚ) : ℚ :=
  min (max q lo) hi

/-- An opened rasterio file handle, abstracted to what the sampler reads
from it: its reported EPSG, bounds, resolution and pixel dimensions, the
inverse geotransform (f.index, giving fractional row and column arrays) and
the windowed read of one value at a fractional row and column with an
optional resampling override.  The index laws are the rasterio contract that
its outputs are index-aligned with the inputs. -/
structure RasterFile where
  crs_epsg : Int
  bounds : BoundingBox
  res : ℚ × ℚ
  width : Nat
  height : Nat
  index : List ℚ → List ℚ → List ℚ × List ℚ
  read : Option Resampling → ℚ → ℚ → ℚ
  index_fst_length : ∀ xs ys, (index xs ys).1.length = xs.length
  index_snd_length : ∀ xs ys, (index xs ys).2.length = ys.length

/-- The body of backend._get_elevation_from_path after the kernel name has
been resolved: reproject into the file CRS, validate bounds, convert to
fractional pixel indices, shift from center to upper-left convention, clip
to the array shape, and read one windowed value per point. -/
def get_elevation_from_path_resolved (proj : Projection) (f : RasterFile)
    (lats lons : List ℚ) (interpolation : Option Resampling) :
    Except InputError (List ℚ) :=
  match reproject_latlons proj lats lons f.crs_epsg with
  | Except.error e => Except.error e
  | Except.ok (xs, ys) =>
    match validate_points_lie_within_raster xs ys lats lons f.bounds f.res with
    | Except.error e => Except.error e
    | Except.ok _ =>
      let rows := (f.index xs ys).1.map (fun r => np_clip (r - 1/2) 0 ((f.height : ℚ) - 1))
      let cols := (f.index xs ys).2.map (fun c => np_clip (c - 1/2) 0 ((f.width : ℚ) - 1))
      Except.ok ((rows.zip cols).map (fun rc => f.read interpolation rc.1 rc.2))

/-- backend._get_elevation_from_path: resolve the kernel name through
INTERPOLATION_METHODS.get (unknown names resolve to no override) and run the
sampler on the opened file. -/
def get_elevation_from_path (proj : Projection) (open_raster : String → RasterFile)
    (lats lons : List ℚ) (path : String) (interpolation : String) :
    Except InputError (List ℚ) :=
  get_elevation_from_path_resolved proj (open_raster path) lats lons
    (INTERPOLATION_METHODS.lookup interpolation)

/-- Modelled from the spec: the config.Dataset capability is repository code
outside the embedded source file, so it is abstracted to the two operations
the orchestrator calls — per-point tile routing and the fill policy — with
the index-alignment laws of section 6 of the specification. -/
structure Dataset where
  location_paths : List ℚ → List ℚ → List (Option String)
  missing_tile_elevations : List ℚ → List ℚ → List (Option ℚ)
  location_paths_length : ∀ lats lons, (location_paths lats lons).length = lats.length
  missing_tile_elevations_length :
    ∀ lats lons, (missing_tile_elevations lats lons).length = lats.length

/-- The list of original indices routed to a given path: the entry
path_to_point_index[p] built by the enumerate loop, in ascending index
order. -/
def indicesOf (paths : List (Option String)) (p : Option String) : List Nat :=
  (List.range paths.length).filter (fun i => decide (paths.getD i none = p))

/-- The keys of path_to_point_index in Python dict insertion order: first
occurrence order of the routing results. -/
def dictKeys (paths : List (Option String)) : List (Option String) :=
  paths.foldl (fun acc q => if q ∈ acc then acc else acc ++ [q]) []

/-- The local variable no_path_lats of get_elevation: the latitudes of the
points routed to no tile. -/
def no_path_lats (dataset : Dataset) (lats lons : List ℚ) : List ℚ :=
  (indicesOf (dataset.location_paths lats lons) none).map (fun i => lats.getD i 0)

/-- The local variable no_path_lons of get_elevation. -/
def no_path_lons (dataset : Dataset) (lats lons : List ℚ) : List ℚ :=
  (indicesOf (dataset.location_paths lats lons) none).map (fun i => lons.getD i 0)

/-- The local variable fill_values of get_elevation: the fill policy result
for the points routed to no tile. -/
def fill_values (dataset : Dataset) (lats lons : List ℚ) : List (Option ℚ) :=
  dataset.missing_tile_elevations (no_path_lats dataset lats lons)
    (no_path_lons dataset lats lons)

/-- The block of get_elevation that handles points routed to no tile: if the
fill policy declines some point (returns None for it), the whole call fails
quoting the first such point; otherwise it yields the synthetic no-tile
entry of elevations_by_path. -/
def no_tile_fill (dataset : Dataset) (lats lons : List ℚ)
    (paths : List (Option String)) : Except InputError (List (Option String × List ℚ)) :=
  if none ∈ paths then
    if none ∈ fill_values dataset lats lons then
      Except.error (InputError.pointOutsideDatasetBounds
        ((no_path_lats dataset lats lons).getD
          ((fill_values dataset lats lons).findIdx (fun v => v.isNone)) 0)
        ((no_path_lons dataset lats lons).getD
          ((fill_values dataset lats lons).findIdx (fun v => v.isNone)) 0))
    else
      Except.ok [(none, (fill_values dataset lats lons).map (fun v => v.getD 0))]
  else
    Except.ok []

/-- The loop of get_elevation over path_to_point_index: for each real tile
path, in dict key order, sample the sub-batch routed to it, collecting the
tile entries of elevations_by_path; the none key is skipped. -/
def batch_results_by_path (proj : Projection) (open_raster : String → RasterFile)
    (paths : List (Option String)) (lats lons : List ℚ) (interpolation : String) :
    List (Option String) → Except InputError (List (Option String × List ℚ))
  | [] => Except.ok []
  | none :: keys => batch_results_by_path proj open_raster paths lats lons interpolation keys
  | some path :: keys =>
    match get_elevation_from_path proj open_raster
        ((indicesOf paths (some path)).map (fun i => lats.getD i 0))
        ((indicesOf paths (some path)).map (fun i => lons.getD i 0))
        path interpolation with
    | Except.error e => Except.error e
    | Except.ok zs =>
      match batch_results_by_path proj open_raster paths lats lons interpolation keys with
      | Except.error e => Except.error e
      | Except.ok rest => Except.ok ((some path, zs) :: rest)

/-- The inner merge loop of get_elevation: write each (original index,
elevation) pair of one group into the output array. -/
def write_points : List (Option ℚ) → List (Nat × ℚ) → List (Option ℚ)
  | acc, [] => acc
  | acc, pr :: rest => write_points (acc.set pr.1 (some pr.2)) rest

/-- The outer merge loop of get_elevation: for each elevations_by_path entry,
write its values at the original indices of its group. -/
def write_groups (paths : List (Option String)) :
    List (Option ℚ) → List (Option String × List ℚ) → List (Option ℚ)
  | acc, [] => acc
  | acc, entry :: rest =>
    write_groups paths (write_points acc ((indicesOf paths entry.1).zip entry.2)) rest

/-- The merge step of get_elevation: allocate a None-filled output of the
original length and scatter every group result back to the original indices
of its points. -/
def scatter_results (n : Nat) (paths : List (Option String))
    (by_path : List (Option String × List ℚ)) : List (Option ℚ) :=
  write_groups paths (List.replicate n (none : Option ℚ)) by_path

/-- backend.get_elevation: route points to tiles, resolve the fill policy for
uncovered points, sample every tile sub-batch, and merge everything back in
original order. -/
def get_elevation (proj : Projection) (open_raster : String → RasterFile)
    (dataset : Dataset) (lats lons : List ℚ) (interpolation : String) :
    Except InputError (List (Option ℚ)) :=
  let paths := dataset.location_paths lats lons
  match no_tile_fill dataset lats lons paths with
  | Except.error e => Except.error e
  | Except.ok fill_part =>
    match batch_results_by_path proj open_raster paths lats lons interpolation
        (dictKeys paths) with
    | Except.error e => Except.error e
    | Except.ok tile_part =>
      Except.ok (scatter_results paths.length paths (fill_part ++ tile_part))

/-- The per-group result of get_elevation, used to state the merge claim:
the fill values for the no-tile group, the tile sampler output for a tile
group. -/
def group_values (proj : Projection) (open_raster : String → RasterFile)
    (dataset : Dataset) (lats lons : List ℚ) (interpolation : String) :
    Option String → Except InputError (List ℚ)
  | none =>
    if none ∈ fill_values dataset lats lons then
      Except.error (InputError.pointOutsideDatasetBounds
        ((no_path_lats dataset lats lons).getD
          ((fill_values dataset lats lons).findIdx (fun v => v.isNone)) 0)
        ((no_path_lons dataset lats lons).getD
          ((fill_values dataset lats lons).findIdx (fun v => v.isNone)) 0))
    else
      Except.ok ((fill_values dataset lats lons).map (fun v => v.getD 0))
  | some path =>
    get_elevation_from_path proj open_raster
      ((indicesOf (dataset.location_paths lats lons) (some path)).map
        (fun i => lats.getD i 0))
      ((indicesOf (dataset.location_paths lats lons) (some path)).map
        (fun i => lons.getD i 0))
      path interpolation

/-- A concrete raster file used to instantiate theorems with hypotheses: a
WGS84 file with the bounds and resolution of the repository test suite, an
identity geotransform and a constant-valued read. -/
def tileConst : RasterFile where
  crs_epsg := 4326
  bounds := ⟨-101, -51, 101, 51⟩
  res := (2, 2)
  width := 101
  height := 51
  index := fun xs ys => (xs, ys)
  read := fun _ _ _ => 7
  index_fst_length := fun _ _ => rfl
  index_snd_length := fun _ _ => rfl

/-- A concrete dataset that routes every point to no tile and whose fill
policy declines every point. -/
def datasetNoFill : Dataset where
  location_paths := fun lats _ => lats.map (fun _ => none)
  missing_tile_elevations := fun lats _ => lats.map (fun _ => none)
  location_paths_length := by
    intro lats lons
    simp
  missing_tile_elevations_length := by
    intro lats lons
    simp

/-- A concrete dataset that routes every point to no tile and fills every
uncovered point with elevation 5. -/
def datasetNoTile : Dataset where
  location_paths := fun lats _ => lats.map (fun _ => none)
  missing_tile_elevations := fun lats _ => lats.map (fun _ => some 5)
  location_paths_length := by
    intro lats lons
    simp
  missing_tile_elevations_length := by
    intro lats lons
    simp

/-- Claim C9: reprojecting with the WGS84 sentinel EPSG 4326 is the identity
transform, returning exactly (lons, lats) for every input. -/
theorem reproject_latlons_wgs84_identity (proj : Projection) (lats lons : List ℚ) :
    reproject_latlons proj lats lons 4326 = Except.ok (lons, lats) := by
  simp [reproject_latlons, WGS84_LATLON_EPSG]

/-- Claim C8: for an integer EPSG code that is neither 4326 nor inside
1024..32767, reprojection fails with the invalid-projection InputError for
every input; for a code equal to 4326 or inside the range it never fails
with that error (it returns a result). -/
theorem reproject_latlons_epsg_validation (proj : Projection) (lats lons : List ℚ)
    (epsg : Int) :
    (epsg ≠ 4326 → ¬(1024 ≤ epsg ∧ epsg ≤ 32767) →
      reproject_latlons proj lats lons epsg = Except.error InputError.invalidProjection) ∧
    (epsg = 4326 ∨ (1024 ≤ epsg ∧ epsg ≤ 32767) →
      ∃ xy, reproject_latlons proj lats lons epsg = Except.ok xy) := by
  constructor
  · intro hne hrange
    push_neg at hrange
    simp [reproject_latlons, WGS84_LATLON_EPSG, hne]
    intro h1
    exact hrange h1
  · rintro (h4326 | ⟨h1, h2⟩)
    · subst h4326
      exact ⟨(lons, lats), by simp [reproject_latlons, WGS84_LATLON_EPSG]⟩
    · by_cases h4326 : epsg = 4326
      · subst h4326
        exact ⟨(lons, lats), by simp [reproject_latlons, WGS84_LATLON_EPSG]⟩
      · exact ⟨proj.transform epsg lons lats,
          by simp [reproject_latlons, WGS84_LATLON_EPSG, h4326, h1, h2]⟩

/-- Witness for claim C8 at the concrete codes 0 (invalid) and 2000 (valid). -/
theorem reproject_latlons_epsg_validation_witness :
    reproject_latlons projConst [1] [2] 0 = Except.error InputError.invalidProjection ∧
    ∃ xy, reproject_latlons projConst [1] [2] 2000 = Except.ok xy :=
  ⟨(reproject_latlons_epsg_validation projConst [1] [2] 0).1 (by decide) (by decide),
   (reproject_latlons_epsg_validation projConst [1] [2] 2000).2 (Or.inr (by decide))⟩

/-- Reading a list at an index below its length through getD agrees with
getElem. -/
theorem getD_eq_getElem_of_lt {α : Type} (l : List α) (d : α) {i : Nat}
    (hi : i < l.length) : l.getD i d = l[i] := by
  rw [List.getD_eq_getElem?_getD, List.getElem?_eq_getElem hi, Option.getD_some]

/-- An elementwise boolean mask over a list is all true exactly when the
predicate holds at every index. -/
theorem map_all_iff_getD {α : Type} (l : List α) (d : α) (p : α → Bool) :
    (l.map p).all (fun b => b) = true ↔ ∀ i, i < l.length → p (l.getD i d) = true := by
  rw [List.all_eq_true]
  constructor
  · intro h i hi
    rw [getD_eq_getElem_of_lt l d hi]
    exact h _ (List.mem_map_of_mem p (List.getElem_mem hi))
  · intro h b hb
    obtain ⟨x, hx, rfl⟩ := List.mem_map.mp hb
    obtain ⟨i, hi, rfl⟩ := List.mem_iff_getElem.mp hx
    have := h i hi
    rwa [getD_eq_getElem_of_lt l d hi] at this

/-- The validator returns normally exactly when both elementwise masks are
all true. -/
theorem validate_points_ok_iff_masks (xs ys lats lons : List ℚ)
    (bounds : BoundingBox) (res : ℚ × ℚ) :
    validate_points_lie_within_raster xs ys lats lons bounds res = Except.ok () ↔
      ((y_in_bounds_mask ys bounds res).all (fun b => b) = true ∧
       (x_in_bounds_mask xs bounds res).all (fun b => b) = true) := by
  unfold validate_points_lie_within_raster
  cases hy : (y_in_bounds_mask ys bounds res).all (fun b => b) <;>
    cases hx : (x_in_bounds_mask xs bounds res).all (fun b => b) <;> simp

/-- Claim C4: a point is treated as in-bounds exactly when its x lies between
min(left, right) plus half the x resolution and max(left, right) minus half
the x resolution, inclusive, and symmetrically for y over top and bottom; the
validator returns normally exactly when every point passes, so points lying
exactly on the inset boundary pass. -/
theorem validate_points_in_bounds_iff (xs ys lats lons : List ℚ)
    (bounds : BoundingBox) (res : ℚ × ℚ) (hlen : xs.length = ys.length) :
    validate_points_lie_within_raster xs ys lats lons bounds res = Except.ok () ↔
      ∀ i, i < xs.length →
        (min bounds.left bounds.right + res.1 / 2 ≤ xs.getD i 0 ∧
         xs.getD i 0 ≤ max bounds.left bounds.right - res.1 / 2 ∧
         min bounds.top bounds.bottom + res.2 / 2 ≤ ys.getD i 0 ∧
         ys.getD i 0 ≤ max bounds.top bounds.bottom - res.2 / 2) := by
  rw [validate_points_ok_iff_masks]
  unfold y_in_bounds_mask x_in_bounds_mask
  rw [map_all_iff_getD ys 0, map_all_iff_getD xs 0]
  simp only [Bool.and_eq_true, decide_eq_true_eq, raster_x_min, raster_x_max,
    raster_y_min, raster_y_max]
  constructor
  · rintro ⟨hy, hx⟩ i hi
    exact ⟨(hx i hi).1, (hx i hi).2, (hy i (hlen ▸ hi)).1, (hy i (hlen ▸ hi)).2⟩
  · intro h
    exact ⟨fun i hi => ⟨(h i (hlen.symm ▸ hi)).2.2.1, (h i (hlen.symm ▸ hi)).2.2.2⟩,
           fun i hi => ⟨(h i hi).1, (h i hi).2.1⟩⟩

/-- Witness for claim C4: three points lying exactly on the inset boundary of
the bounds used in the repository test suite pass validation. -/
theorem validate_points_in_bounds_iff_witness :
    validate_points_lie_within_raster [0, -100, 100] [0, -50, 50] [0, -50, 50]
      [0, -100, 100] ⟨-101, -51, 101, 51⟩ (2, 2) = Except.ok () :=
  (validate_points_in_bounds_iff [0, -100, 100] [0, -50, 50] [0, -50, 50]
      [0, -100, 100] ⟨-101, -51, 101, 51⟩ (2, 2) rfl).mpr (by
    intro i hi
    simp only [List.length_cons, List.length_nil] at hi
    interval_cases i <;>
      norm_num [min_def, max_def, List.getD_cons_zero, List.getD_cons_succ])

/-- Claim C5: whenever some point violates the y (latitude) bound — even if
some point also violates the x (longitude) bound — the validator raises the
latitude error, never the longitude one. -/
theorem validate_points_latitude_before_longitude (xs ys lats lons : List ℚ)
    (bounds : BoundingBox) (res : ℚ × ℚ)
    (hy : ∃ y ∈ ys, y < raster_y_min bounds res ∨ raster_y_max bounds res < y)
    (_hx : ∃ x ∈ xs, x < raster_x_min bounds res ∨ raster_x_max bounds res < x) :
    ∃ lat lon, validate_points_lie_within_raster xs ys lats lons bounds res =
      Except.error (InputError.locationOutsideRasterBounds lat lon Axis.latitude) := by
  have hall : (y_in_bounds_mask ys bounds res).all (fun b => b) = false := by
    rw [List.all_eq_false]
    obtain ⟨y, hmem, hv⟩ := hy
    refine ⟨decide (raster_y_min bounds res ≤ y) && decide (y ≤ raster_y_max bounds res),
      List.mem_map_of_mem _ hmem, ?_⟩
    simp only [Bool.and_eq_true, decide_eq_true_eq, not_and]
    rcases hv with h | h
    · intro hc
      exact absurd hc (not_le.mpr h)
    · intro _
      exact not_le.mpr h
  exact ⟨lats.getD (np_argmax (y_in_bounds_mask ys bounds res)) 0,
         lons.getD (np_argmax (y_in_bounds_mask ys bounds res)) 0, by
    unfold validate_points_lie_within_raster
    rw [hall]
    simp⟩

/-- Witness for claim C5: a batch where the second point violates latitude
and the first violates longitude is reported as a latitude violation. -/
theorem validate_points_latitude_before_longitude_witness :
    ∃ lat lon, validate_points_lie_within_raster [200, 0] [0, 60] [9, 8] [7, 6]
      ⟨-101, -51, 101, 51⟩ (2, 2) =
      Except.error (InputError.locationOutsideRasterBounds lat lon Axis.latitude) :=
  validate_points_latitude_before_longitude [200, 0] [0, 60] [9, 8] [7, 6]
    ⟨-101, -51, 101, 51⟩ (2, 2)
    ⟨60, by norm_num, Or.inr (by norm_num [raster_y_max, max_def])⟩
    ⟨200, by norm_num, Or.inr (by norm_num [raster_x_max, max_def])⟩

/-- Claim C6: whether the validator raises or returns normally depends only
on xs, ys, bounds and res; replacing lats and lons with arbitrary other
display values never changes success into failure or vice versa. -/
theorem validate_points_display_independence (xs ys lats lons lats2 lons2 : List ℚ)
    (bounds : BoundingBox) (res : ℚ × ℚ) :
    (validate_points_lie_within_raster xs ys lats lons bounds res).isOk =
    (validate_points_lie_within_raster xs ys lats2 lons2 bounds res).isOk := by
  unfold validate_points_lie_within_raster
  cases hy : (y_in_bounds_mask ys bounds res).all (fun b => b) <;>
    cases hx : (x_in_bounds_mask xs bounds res).all (fun b => b) <;> rfl

/-- Claim C1, evaluated at a failing input: only the second point
(lat 2, lon 4, projected to (200, 200)) is out of bounds, yet the raised
error quotes the first point (lat 1, lon 3), which is in bounds — the source
applies np.argmax to the in-bounds mask instead of to its negation, so on a
mixed batch it reports the first in-bounds index rather than the first
offending one. -/
theorem validate_points_reports_inbounds_point :
    validate_points_lie_within_raster [0, 200] [0, 200] [1, 2] [3, 4]
      ⟨-101, -51, 101, 51⟩ (2, 2) =
      Except.error (InputError.locationOutsideRasterBounds 1 3 Axis.latitude) := by
  have hmask : y_in_bounds_mask [0, 200] ⟨-101, -51, 101, 51⟩ (2, 2) = [true, false] := by
    simp only [y_in_bounds_mask, raster_y_min, raster_y_max, List.map_cons, List.map_nil]
    norm_num [min_def, max_def]
  unfold validate_points_lie_within_raster
  rw [hmask]
  rfl

/-- Claim C7: a kernel name outside the enumerated set resolves to no
resampling override instead of raising a validation error: the lookup
returns none and the tile sampler behaves exactly as the sampler run with no
kernel override. -/
theorem unknown_interpolation_passthrough (proj : Projection)
    (open_raster : String → RasterFile) (lats lons : List ℚ) (path name : String)
    (h1 : name ≠ "nearest") (h2 : name ≠ "bilinear") (h3 : name ≠ "cubic") :
    INTERPOLATION_METHODS.lookup name = none ∧
    get_elevation_from_path proj open_raster lats lons path name =
      get_elevation_from_path_resolved proj (open_raster path) lats lons none := by
  have e1 : (name == "nearest") = false := beq_eq_false_iff_ne.mpr h1
  have e2 : (name == "bilinear") = false := beq_eq_false_iff_ne.mpr h2
  have e3 : (name == "cubic") = false := beq_eq_false_iff_ne.mpr h3
  have hlookup : INTERPOLATION_METHODS.lookup name = none := by
    simp [INTERPOLATION_METHODS, List.lookup, e1, e2, e3]
  refine ⟨hlookup, ?_⟩
  unfold get_elevation_from_path
  rw [hlookup]

/-- Witness for claim C7 at the kernel name that the test suite passes
through (lanczos). -/
theorem unknown_interpolation_passthrough_witness :
    INTERPOLATION_METHODS.lookup "lanczos" = none ∧
    get_elevation_from_path projConst (fun _ => tileConst) [0] [0] "p" "lanczos" =
      get_elevation_from_path_resolved projConst tileConst [0] [0] none :=
  unknown_interpolation_passthrough projConst (fun _ => tileConst) [0] [0] "p" "lanczos"
    (by decide) (by decide) (by decide)

/-- Claim C2: when some points route to no tile and the fill policy marks at
least one of them out of bounds, the whole call fails with the
point-outside-dataset-bounds InputError quoting the first marked point of
the no-tile subgroup; no result list is returned. -/
theorem get_elevation_oob_fails_whole_call (proj : Projection)
    (open_raster : String → RasterFile) (dataset : Dataset) (lats lons : List ℚ)
    (interpolation : String)
    (hnone : none ∈ dataset.location_paths lats lons)
    (hfill : none ∈ fill_values dataset lats lons) :
    get_elevation proj open_raster dataset lats lons interpolation =
      Except.error (InputError.pointOutsideDatasetBounds
        ((no_path_lats dataset lats lons).getD
          ((fill_values dataset lats lons).findIdx (fun v => v.isNone)) 0)
        ((no_path_lons dataset lats lons).getD
          ((fill_values dataset lats lons).findIdx (fun v => v.isNone)) 0)) := by
  simp only [get_elevation, no_tile_fill]
  rw [if_pos hnone, if_pos hfill]

/-- Witness for claim C2: one point, routed to no tile and declined by the
fill policy, fails the call quoting that point. -/
theorem get_elevation_oob_fails_whole_call_witness :
    get_elevation projConst (fun _ => tileConst) datasetNoFill [1] [2] "nearest" =
      Except.error (InputError.pointOutsideDatasetBounds 1 2) := by
  have h := get_elevation_oob_fails_whole_call projConst (fun _ => tileConst)
    datasetNoFill [1] [2] "nearest" (by decide)
    (by decide)
  exact h

/-- Claim C10: on the empty query batch the orchestrator returns the empty
list without raising: routing is index-aligned, so no point routes anywhere,
no tile is sampled and the fill policy is never consulted. -/
theorem get_elevation_empty_batch (proj : Projection)
    (open_raster : String → RasterFile) (dataset : Dataset) (interpolation : String) :
    get_elevation proj open_raster dataset [] [] interpolation = Except.ok [] := by
  have hp : dataset.location_paths [] [] = [] :=
    List.length_eq_zero.mp (dataset.location_paths_length [] [])
  unfold get_elevation
  rw [hp]
  rfl

/-- An index belongs to the group of path p exactly when it is a valid index
whose routing result is p. -/
theorem mem_indicesOf (paths : List (Option String)) (p : Option String) (i : Nat) :
    i ∈ indicesOf paths p ↔ i < paths.length ∧ paths.getD i none = p := by
  simp [indicesOf, List.mem_filter, List.mem_range]

/-- The index list of a group has no duplicates. -/
theorem indicesOf_nodup (paths : List (Option String)) (p : Option String) :
    (indicesOf paths p).Nodup :=
  List.Nodup.filter _ (List.nodup_range _)

/-- Every index in a group is a valid index of the routing list. -/
theorem indicesOf_lt (paths : List (Option String)) (p : Option String) {i : Nat}
    (h : i ∈ indicesOf paths p) : i < paths.length :=
  ((mem_indicesOf paths p i).mp h).1

/-- Membership in the accumulated first-occurrence key list. -/
theorem mem_foldl_keys (l acc : List (Option String)) (p : Option String) :
    p ∈ l.foldl (fun acc q => if q ∈ acc then acc else acc ++ [q]) acc ↔
      p ∈ acc ∨ p ∈ l := by
  induction l generalizing acc with
  | nil => simp
  | cons q rest ih =>
    simp only [List.foldl_cons]
    rw [ih]
    by_cases hq : q ∈ acc
    · rw [if_pos hq]
      simp only [List.mem_cons]
      constructor
      · rintro (h | h)
        · exact Or.inl h
        · exact Or.inr (Or.inr h)
      · rintro (h | rfl | h)
        · exact Or.inl h
        · exact Or.inl hq
        · exact Or.inr h
    · rw [if_neg hq]
      simp only [List.mem_append, List.mem_singleton, List.mem_cons]
      tauto

/-- A path occurs among the dict keys exactly when some point routes to it. -/
theorem mem_dictKeys (paths : List (Option String)) (p : Option String) :
    p ∈ dictKeys paths ↔ p ∈ paths := by
  rw [dictKeys, mem_foldl_keys]
  simp

/-- The accumulated first-occurrence key list stays duplicate-free. -/
theorem nodup_foldl_keys (l : List (Option String)) (acc : List (Option String))
    (hacc : acc.Nodup) :
    (l.foldl (fun acc q => if q ∈ acc then acc else acc ++ [q]) acc).Nodup := by
  induction l generalizing acc with
  | nil => simpa
  | cons q rest ih =>
    simp only [List.foldl_cons]
    apply ih
    by_cases hq : q ∈ acc
    · simpa [hq]
    · rw [if_neg hq, List.nodup_append]
      refine ⟨hacc, List.nodup_singleton q, ?_⟩
      intro a ha hb
      rw [List.mem_singleton] at hb
      subst hb
      exact hq ha

/-- Dict keys are pairwise distinct. -/
theorem dictKeys_nodup (paths : List (Option String)) : (dictKeys paths).Nodup :=
  nodup_foldl_keys paths [] List.nodup_nil

/-- The inner merge loop preserves the output length. -/
theorem write_points_length (pairs : List (Nat × ℚ)) (acc : List (Option ℚ)) :
    (write_points acc pairs).length = acc.length := by
  induction pairs generalizing acc with
  | nil => rfl
  | cons pr rest ih =>
    rw [write_points, ih, List.length_set]

/-- The inner merge loop leaves untouched every slot whose index is not
written by some pair. -/
theorem write_points_not_mem (pairs : List (Nat × ℚ)) :
    ∀ (acc : List (Option ℚ)) {i : Nat}, i ∉ pairs.map Prod.fst →
      (write_points acc pairs)[i]? = acc[i]? := by
  induction pairs with
  | nil =>
    intro acc i h
    rfl
  | cons pr rest ih =>
    intro acc i h
    simp only [List.map_cons, List.mem_cons, not_or] at h
    rw [write_points, ih _ h.2, List.getElem?_set_ne (fun he => h.1 he.symm)]

/-- The inner merge loop writes the k-th pair value at the k-th pair index,
when the written indices are pairwise distinct and in range. -/
theorem write_points_read (pairs : List (Nat × ℚ)) :
    ∀ (acc : List (Option ℚ)), (pairs.map Prod.fst).Nodup →
      ∀ {k : Nat}, k < pairs.length → (pairs.getD k (0, 0)).1 < acc.length →
      (write_points acc pairs)[(pairs.getD k (0, 0)).1]? =
        some (some (pairs.getD k (0, 0)).2) := by
  induction pairs with
  | nil =>
    intro acc _ k hk _
    exact absurd hk (by simp)
  | cons pr rest ih =>
    intro acc hnd k hk hlt
    simp only [List.map_cons, List.nodup_cons] at hnd
    cases k with
    | zero =>
      simp only [List.getD_cons_zero] at hlt ⊢
      rw [write_points, write_points_not_mem rest _ hnd.1,
        List.getElem?_set_self (by simpa using hlt)]
    | succ k =>
      simp only [List.getD_cons_succ] at hlt ⊢
      rw [write_points]
      exact ih (acc.set pr.1 (some pr.2)) hnd.2 (by simpa using hk)
        (by simpa [List.length_set] using hlt)

/-- The outer merge loop preserves the output length. -/
theorem write_groups_length (paths : List (Option String))
    (by_path : List (Option String × List ℚ)) (acc : List (Option ℚ)) :
    (write_groups paths acc by_path).length = acc.length := by
  induction by_path generalizing acc with
  | nil => rfl
  | cons e rest ih =>
    rw [write_groups, ih, write_points_length]

/-- An index whose routing result does not key any written group keeps its
slot untouched by the outer merge loop. -/
theorem write_groups_not_mem (paths : List (Option String))
    (by_path : List (Option String × List ℚ)) :
    ∀ (acc : List (Option ℚ)) {i : Nat},
      paths.getD i none ∉ by_path.map Prod.fst →
      (write_groups paths acc by_path)[i]? = acc[i]? := by
  induction by_path with
  | nil =>
    intro acc i h
    rfl
  | cons e rest ih =>
    intro acc i h
    simp only [List.map_cons, List.mem_cons, not_or] at h
    rw [write_groups, ih _ h.2]
    apply write_points_not_mem
    intro hc
    obtain ⟨pr, hmem, hfst⟩ := List.mem_map.mp hc
    have hidx : i ∈ indicesOf paths e.1 := by
      rw [← hfst]
      exact (List.of_mem_zip hmem).1
    exact h.1 ((mem_indicesOf paths e.1 i).mp hidx).2

/-- The outer merge loop writes, for every written group and every rank k in
that group, the group value of rank k at the original index of rank k. -/
theorem write_groups_read (paths : List (Option String))
    (by_path : List (Option String × List ℚ)) :
    ∀ (acc : List (Option ℚ)), acc.length = paths.length →
      (by_path.map Prod.fst).Nodup →
      (∀ e ∈ by_path, e.2.length = (indicesOf paths e.1).length) →
      ∀ {p : Option String} {vals : List ℚ}, (p, vals) ∈ by_path →
      ∀ {k : Nat}, k < (indicesOf paths p).length →
      (write_groups paths acc by_path)[(indicesOf paths p).getD k 0]? =
        some (some (vals.getD k 0)) := by
  induction by_path with
  | nil =>
    intro acc _ _ _ p vals hmem
    cases hmem
  | cons e rest ih =>
    intro acc hacc hnd hlen p vals hmem k hk
    simp only [List.map_cons, List.nodup_cons] at hnd
    rcases List.mem_cons.mp hmem with heq | hmem2
    · subst heq
      have hvlen : vals.length = (indicesOf paths p).length :=
        hlen (p, vals) (List.mem_cons_self _ _)
      have hi_mem : (indicesOf paths p).getD k 0 ∈ indicesOf paths p := by
        rw [getD_eq_getElem_of_lt _ _ hk]
        exact List.getElem_mem hk
      have hgroup : paths.getD ((indicesOf paths p).getD k 0) none = p :=
        ((mem_indicesOf paths p _).mp hi_mem).2
      rw [write_groups, write_groups_not_mem paths rest _ (by rw [hgroup]; exact hnd.1)]
      have hkz : k < ((indicesOf paths p).zip vals).length := by
        rw [List.length_zip, hvlen]
        simpa using hk
      have hzip : ((indicesOf paths p).zip vals).getD k (0, 0) =
          ((indicesOf paths p).getD k 0, vals.getD k 0) := by
        rw [getD_eq_getElem_of_lt _ _ hkz, List.getElem_zip,
          getD_eq_getElem_of_lt _ _ hk, getD_eq_getElem_of_lt _ _ (hvlen ▸ hk)]
      have hndz : (((indicesOf paths p).zip vals).map Prod.fst).Nodup := by
        rw [List.map_fst_zip _ _ (le_of_eq hvlen.symm)]
        exact indicesOf_nodup paths p
      have := write_points_read ((indicesOf paths p).zip vals) acc hndz hkz
        (by rw [hzip, hacc]; exact indicesOf_lt paths p hi_mem)
      rw [hzip] at this
      exact this
    · rw [write_groups]
      exact ih (write_points acc ((indicesOf paths e.1).zip e.2))
        (by rw [write_points_length, hacc]) hnd.2
        (fun e2 he2 => hlen e2 (List.mem_cons_of_mem _ he2)) hmem2 hk

/-- The merged output has exactly the allocated length. -/
theorem scatter_results_length (n : Nat) (paths : List (Option String))
    (by_path : List (Option String × List ℚ)) :
    (scatter_results n paths by_path).length = n := by
  rw [scatter_results, write_groups_length, List.length_replicate]

/-- Reading the merged output at the original index of rank k of a written
group yields the group value of rank k. -/
theorem scatter_results_read (paths : List (Option String))
    (by_path : List (Option String × List ℚ))
    (hnd : (by_path.map Prod.fst).Nodup)
    (hlen : ∀ e ∈ by_path, e.2.length = (indicesOf paths e.1).length)
    {p : Option String} {vals : List ℚ} (hmem : (p, vals) ∈ by_path)
    {k : Nat} (hk : k < (indicesOf paths p).length) :
    (scatter_results paths.length paths by_path).getD
      ((indicesOf paths p).getD k 0) none = some (vals.getD k 0) := by
  have h := write_groups_read paths by_path (List.replicate paths.length none)
    (List.length_replicate _ _) hnd hlen hmem hk
  rw [List.getD_eq_getElem?_getD, scatter_results, h, Option.getD_some]

/-- A successful reprojection returns arrays index-aligned with the input. -/
theorem reproject_latlons_ok_length (proj : Projection) (lats lons : List ℚ)
    (epsg : Int) (xs ys : List ℚ)
    (h : reproject_latlons proj lats lons epsg = Except.ok (xs, ys)) :
    xs.length = lons.length ∧ ys.length = lats.length := by
  unfold reproject_latlons at h
  split at h
  · injection h with h
    injection h with h1 h2
    subst h1
    subst h2
    exact ⟨rfl, rfl⟩
  · split at h
    · exact Except.noConfusion h
    · injection h with h
      have h1 : xs = (proj.transform epsg lons lats).1 := by rw [h]
      have h2 : ys = (proj.transform epsg lons lats).2 := by rw [h]
      rw [h1, h2, proj.transform_fst_length, proj.transform_snd_length]
      exact ⟨rfl, rfl⟩

/-- A successful tile sampler run returns one elevation per input point. -/
theorem get_elevation_from_path_resolved_length (proj : Projection) (f : RasterFile)
    (lats lons : List ℚ) (interp : Option Resampling) (zs : List ℚ)
    (hll : lats.length = lons.length)
    (h : get_elevation_from_path_resolved proj f lats lons interp = Except.ok zs) :
    zs.length = lats.length := by
  unfold get_elevation_from_path_resolved at h
  split at h
  · exact Except.noConfusion h
  · rename_i xs ys heq
    split at h
    · exact Except.noConfusion h
    · injection h with h
      subst h
      obtain ⟨h1, h2⟩ := reproject_latlons_ok_length proj lats lons f.crs_epsg xs ys heq
      rw [List.length_map, List.length_zip, List.length_map, List.length_map,
        f.index_fst_length, f.index_snd_length, h1, h2, hll]
      exact min_self _

/-- The same, through the kernel name resolution. -/
theorem get_elevation_from_path_length (proj : Projection)
    (open_raster : String → RasterFile) (lats lons : List ℚ)
    (path interpolation : String) (zs : List ℚ)
    (hll : lats.length = lons.length)
    (h : get_elevation_from_path proj open_raster lats lons path interpolation =
      Except.ok zs) :
    zs.length = lats.length :=
  get_elevation_from_path_resolved_length proj (open_raster path) lats lons
    (INTERPOLATION_METHODS.lookup interpolation) zs hll h

/-- Inversion of the no-tile block on success. -/
theorem no_tile_fill_ok (dataset : Dataset) (lats lons : List ℚ)
    (paths : List (Option String)) (fill_part : List (Option String × List ℚ))
    (h : no_tile_fill dataset lats lons paths = Except.ok fill_part) :
    (none ∈ paths → none ∉ fill_values dataset lats lons ∧
      fill_part = [(none, (fill_values dataset lats lons).map (fun v => v.getD 0))]) ∧
    (none ∉ paths → fill_part = []) := by
  unfold no_tile_fill at h
  by_cases hp : none ∈ paths
  · rw [if_pos hp] at h
    by_cases hf : none ∈ fill_values dataset lats lons
    · rw [if_pos hf] at h
      exact Except.noConfusion h
    · rw [if_neg hf] at h
      injection h with h
      subst h
      exact ⟨fun _ => ⟨hf, rfl⟩, fun hc => absurd hp hc⟩
  · rw [if_neg hp] at h
    injection h with h
    subst h
    exact ⟨fun hc => absurd hc hp, fun _ => rfl⟩

/-- Inversion of the tile loop on success: the entry keys are exactly the
real tile keys, in order. -/
theorem batch_results_map_fst (proj : Projection) (open_raster : String → RasterFile)
    (paths : List (Option String)) (lats lons : List ℚ) (interpolation : String) :
    ∀ (keys : List (Option String)) (tile_part : List (Option String × List ℚ)),
      batch_results_by_path proj open_raster paths lats lons interpolation keys =
        Except.ok tile_part →
      tile_part.map Prod.fst = keys.filter (fun q => q.isSome) := by
  intro keys
  induction keys with
  | nil =>
    intro tile_part h
    injection h with h
    subst h
    rfl
  | cons q rest ih =>
    intro tile_part h
    cases q with
    | none =>
      simp only [batch_results_by_path] at h
      simp [ih tile_part h]
    | some path =>
      cases hzs : get_elevation_from_path proj open_raster
          ((indicesOf paths (some path)).map (fun i => lats.getD i 0))
          ((indicesOf paths (some path)).map (fun i => lons.getD i 0)) path
          interpolation with
      | error e =>
        simp only [batch_results_by_path, hzs] at h
        exact Except.noConfusion h
      | ok zs =>
        simp only [batch_results_by_path, hzs] at h
        cases hrest : batch_results_by_path proj open_raster paths lats lons
            interpolation rest with
        | error e =>
          simp only [hrest] at h
          exact Except.noConfusion h
        | ok rest_part =>
          simp only [hrest] at h
          injection h with h
          subst h
          simp [ih rest_part hrest]

/-- Inversion of the tile loop on success: each entry carries the ok sampler
result of its own tile sub-batch. -/
theorem batch_results_mem (proj : Projection) (open_raster : String → RasterFile)
    (paths : List (Option String)) (lats lons : List ℚ) (interpolation : String) :
    ∀ (keys : List (Option String)) (tile_part : List (Option String × List ℚ)),
      batch_results_by_path proj open_raster paths lats lons interpolation keys =
        Except.ok tile_part →
      ∀ e ∈ tile_part, ∃ path, e.1 = some path ∧
        get_elevation_from_path proj open_raster
          ((indicesOf paths (some path)).map (fun i => lats.getD i 0))
          ((indicesOf paths (some path)).map (fun i => lons.getD i 0)) path
          interpolation = Except.ok e.2 := by
  intro keys
  induction keys with
  | nil =>
    intro tile_part h e he
    injection h with h
    subst h
    cases he
  | cons q rest ih =>
    intro tile_part h e he
    cases q with
    | none =>
      simp only [batch_results_by_path] at h
      exact ih tile_part h e he
    | some path =>
      cases hzs : get_elevation_from_path proj open_raster
          ((indicesOf paths (some path)).map (fun i => lats.getD i 0))
          ((indicesOf paths (some path)).map (fun i => lons.getD i 0)) path
          interpolation with
      | error e2 =>
        simp only [batch_results_by_path, hzs] at h
        exact Except.noConfusion h
      | ok zs =>
        simp only [batch_results_by_path, hzs] at h
        cases hrest : batch_results_by_path proj open_raster paths lats lons
            interpolation rest with
        | error e2 =>
          simp only [hrest] at h
          exact Except.noConfusion h
        | ok rest_part =>
          simp only [hrest] at h
          injection h with h
          subst h
          rcases List.mem_cons.mp he with heq | hmem
          · subst heq
            exact ⟨path, rfl, hzs⟩
          · exact ih rest_part hrest e hmem

/-- Inversion of the tile loop on success: every real tile key of the key
list owns an entry. -/
theorem batch_results_key_mem (proj : Projection) (open_raster : String → RasterFile)
    (paths : List (Option String)) (lats lons : List ℚ) (interpolation : String) :
    ∀ (keys : List (Option String)) (tile_part : List (Option String × List ℚ)),
      batch_results_by_path proj open_raster paths lats lons interpolation keys =
        Except.ok tile_part →
      ∀ path, some path ∈ keys → ∃ zs, (some path, zs) ∈ tile_part := by
  intro keys
  induction keys with
  | nil =>
    intro tile_part _ path hmem
    cases hmem
  | cons q rest ih =>
    intro tile_part h path hmem
    cases q with
    | none =>
      simp only [batch_results_by_path] at h
      rcases List.mem_cons.mp hmem with heq | hmem2
      · exact Option.noConfusion heq
      · exact ih tile_part h path hmem2
    | some path2 =>
      cases hzs : get_elevation_from_path proj open_raster
          ((indicesOf paths (some path2)).map (fun i => lats.getD i 0))
          ((indicesOf paths (some path2)).map (fun i => lons.getD i 0)) path2
          interpolation with
      | error e2 =>
        simp only [batch_results_by_path, hzs] at h
        exact Except.noConfusion h
      | ok zs =>
        simp only [batch_results_by_path, hzs] at h
        cases hrest : batch_results_by_path proj open_raster paths lats lons
            interpolation rest with
        | error e2 =>
          simp only [hrest] at h
          exact Except.noConfusion h
        | ok rest_part =>
          simp only [hrest] at h
          injection h with h
          subst h
          rcases List.mem_cons.mp hmem with heq | hmem2
          · obtain rfl := Option.some.inj heq
            exact ⟨zs, List.mem_cons_self _ _⟩
          · obtain ⟨zs2, hzs2⟩ := ih rest_part hrest path hmem2
            exact ⟨zs2, List.mem_cons_of_mem _ hzs2⟩

/-- Claim C3: when get_elevation returns normally, the output has the length
of the input, every index belongs to the index group of its own routing
result, and for every routed path the group result is ok with one value per
group index, and the merged output at the original index of rank k of the
group is exactly the group value of rank k — every slot is filled with the
value its group produced for it, in original input order. -/
theorem get_elevation_merge_order (proj : Projection)
    (open_raster : String → RasterFile) (dataset : Dataset) (lats lons : List ℚ)
    (interpolation : String) (elevations : List (Option ℚ))
    (hok : get_elevation proj open_raster dataset lats lons interpolation =
      Except.ok elevations) :
    elevations.length = lats.length ∧
    (∀ i, i < elevations.length →
      i ∈ indicesOf (dataset.location_paths lats lons)
        ((dataset.location_paths lats lons).getD i none)) ∧
    (∀ p, p ∈ dataset.location_paths lats lons → ∃ vals,
      group_values proj open_raster dataset lats lons interpolation p =
        Except.ok vals ∧
      vals.length = (indicesOf (dataset.location_paths lats lons) p).length ∧
      (∀ k, k < (indicesOf (dataset.location_paths lats lons) p).length →
        elevations.getD
            ((indicesOf (dataset.location_paths lats lons) p).getD k 0) none =
          some (vals.getD k 0))) := by
  simp only [get_elevation] at hok
  cases hfill : no_tile_fill dataset lats lons (dataset.location_paths lats lons) with
  | error e =>
    simp only [hfill] at hok
    exact Except.noConfusion hok
  | ok fill_part =>
    simp only [hfill] at hok
    cases htile : batch_results_by_path proj open_raster
        (dataset.location_paths lats lons) lats lons interpolation
        (dictKeys (dataset.location_paths lats lons)) with
    | error e =>
      simp only [htile] at hok
      exact Except.noConfusion hok
    | ok tile_part =>
      simp only [htile] at hok
      injection hok with hok
      subst hok
      have hplen : (dataset.location_paths lats lons).length = lats.length :=
        dataset.location_paths_length lats lons
      obtain ⟨hfill_in, hfill_out⟩ :=
        no_tile_fill_ok dataset lats lons _ fill_part hfill
      have hmapfst := batch_results_map_fst proj open_raster
        (dataset.location_paths lats lons) lats lons interpolation _ tile_part htile
      have hmem_tiles := batch_results_mem proj open_raster
        (dataset.location_paths lats lons) lats lons interpolation _ tile_part htile
      have hfills_len : (fill_values dataset lats lons).length =
          (indicesOf (dataset.location_paths lats lons) none).length := by
        rw [fill_values, dataset.missing_tile_elevations_length, no_path_lats,
          List.length_map]
      have hlen_entries : ∀ e ∈ fill_part ++ tile_part,
          e.2.length = (indicesOf (dataset.location_paths lats lons) e.1).length := by
        intro e he
        rcases List.mem_append.mp he with hef | het
        · by_cases hp : none ∈ dataset.location_paths lats lons
          · obtain ⟨hnf, hfp⟩ := hfill_in hp
            rw [hfp, List.mem_singleton] at hef
            subst hef
            simpa using hfills_len
          · rw [hfill_out hp] at hef
            cases hef
        · obtain ⟨path, he1, hzs⟩ := hmem_tiles e het
          have hz := get_elevation_from_path_length proj open_raster _ _ path
            interpolation e.2 (by rw [List.length_map, List.length_map]) hzs
          rw [hz, List.length_map, he1]
      have htile_keys_nodup : (tile_part.map Prod.fst).Nodup := by
        rw [hmapfst]
        exact List.Nodup.filter _ (dictKeys_nodup _)
      have htile_none : (none : Option String) ∉ tile_part.map Prod.fst := by
        rw [hmapfst]
        intro hc
        have hcs := (List.mem_filter.mp hc).2
        simp at hcs
      have hnd : ((fill_part ++ tile_part).map Prod.fst).Nodup := by
        rw [List.map_append, List.nodup_append]
        refine ⟨?_, htile_keys_nodup, ?_⟩
        · by_cases hp : none ∈ dataset.location_paths lats lons
          · rw [(hfill_in hp).2]
            simp
          · rw [hfill_out hp]
            simp
        · intro a ha hb
          by_cases hp : none ∈ dataset.location_paths lats lons
          · rw [(hfill_in hp).2] at ha
            simp only [List.map_cons, List.map_nil, List.mem_singleton] at ha
            subst ha
            exact htile_none hb
          · rw [hfill_out hp] at ha
            cases ha
      refine ⟨?_, ?_, ?_⟩
      · rw [scatter_results_length, hplen]
      · intro i hi
        rw [scatter_results_length] at hi
        exact (mem_indicesOf _ _ _).mpr ⟨hi, rfl⟩
      · intro p hp_mem
        cases p with
        | none =>
          obtain ⟨hnf, hfp⟩ := hfill_in hp_mem
          refine ⟨(fill_values dataset lats lons).map (fun v => v.getD 0), ?_, ?_, ?_⟩
          · simp only [group_values]
            rw [if_neg hnf]
          · rw [List.length_map]
            exact hfills_len
          · intro k hk
            have hmem_entry : ((none : Option String),
                (fill_values dataset lats lons).map (fun v => v.getD 0)) ∈
                fill_part ++ tile_part := by
              apply List.mem_append_left
              rw [hfp]
              exact List.mem_singleton_self _
            exact scatter_results_read _ (fill_part ++ tile_part) hnd hlen_entries
              hmem_entry hk
        | some path =>
          obtain ⟨zs, hz_mem⟩ := batch_results_key_mem proj open_raster
            (dataset.location_paths lats lons) lats lons interpolation _ tile_part
            htile path ((mem_dictKeys _ _).mpr hp_mem)
          obtain ⟨path2, hpe, hzs⟩ := hmem_tiles (some path, zs) hz_mem
          obtain rfl : path = path2 := Option.some.inj hpe
          refine ⟨zs, ?_, ?_, ?_⟩
          · simp only [group_values]
            exact hzs
          · exact hlen_entries (some path, zs) (List.mem_append_right _ hz_mem)
          · intro k hk
            exact scatter_results_read _ (fill_part ++ tile_part) hnd hlen_entries
              (List.mem_append_right _ hz_mem) hk

/-- Witness for claim C3: a two-point batch routed entirely to the no-tile
group with a fill value of 5 merges back, in order, to one filled slot per
input point. -/
theorem get_elevation_merge_order_witness :
    ([some (5 : ℚ), some 5] : List (Option ℚ)).length = ([1, 2] : List ℚ).length ∧
    (∀ i, i < ([some (5 : ℚ), some 5] : List (Option ℚ)).length →
      i ∈ indicesOf (datasetNoTile.location_paths [1, 2] [3, 4])
        ((datasetNoTile.location_paths [1, 2] [3, 4]).getD i none)) ∧
    (∀ p, p ∈ datasetNoTile.location_paths [1, 2] [3, 4] → ∃ vals,
      group_values projConst (fun _ => tileConst) datasetNoTile [1, 2] [3, 4]
          "nearest" p = Except.ok vals ∧
      vals.length = (indicesOf (datasetNoTile.location_paths [1, 2] [3, 4]) p).length ∧
      (∀ k, k < (indicesOf (datasetNoTile.location_paths [1, 2] [3, 4]) p).length →
        ([some (5 : ℚ), some 5] : List (Option ℚ)).getD
            ((indicesOf (datasetNoTile.location_paths [1, 2] [3, 4]) p).getD k 0) none =
          some (vals.getD k 0))) :=
  get_elevation_merge_order projConst (fun _ => tileConst) datasetNoTile [1, 2] [3, 4]
    "nearest" [some 5, some 5] (by rfl)

end Opentopodata
